import Mathlib

/-!
Verification of the core logic of a package-lock security analyzer
(shai-hulud-tester). The embedded functions are translated from the
JavaScript source `src/app.js`: the version comparator `compareVersions`,
the severity classifier `checkPackage`, the dependency extractors
`extractDependencies` / `extractDependenciesRecursive`, and the scan
aggregator `analyzePackageLock`.
-/

namespace ShaiHulud

/-! ### Data model (reference dataset, §3 of the source's data shape) -/

/-- One entry of the reference dataset: a compromised package name together
with the list of its known-compromised version strings. -/
structure CompromisedEntry where
  name : String
  compromisedVersions : List String
deriving DecidableEq, Repr

/-- The reference dataset consumed by the classifier
(`data/compromised-packages.json`): attack name, last-update date, source
URL, and the list of compromised packages. -/
structure ReferenceDataset where
  attackName : String
  lastUpdate : String
  source : String
  compromisedPackages : List CompromisedEntry
deriving DecidableEq, Repr

/-- A dependency extracted from a lockfile. In the v1 recursive strategy the
`version` field of a node may be absent (JS `undefined`), hence
`Option String`; the v2/v3 strategy only emits entries with a present,
non-empty version. -/
structure Dependency where
  name : String
  version : Option String
  path : String
deriving DecidableEq, Repr

/-- Severity tiers produced by `checkPackage`. -/
inductive Severity : Type where
  | critical : Severity
  | high : Severity
  | warning : Severity
deriving DecidableEq, Repr

/-- The threat record returned by `checkPackage` for a matched package
(the JS object literal with fields severity, description,
compromisedVersions, installedVersion, exactMatch). -/
structure Threat where
  severity : Severity
  description : String
  compromisedVersions : List String
  installedVersion : Option String
  exactMatch : Bool
deriving DecidableEq, Repr

/-! ### Version comparator (`compareVersions` in src/app.js)

JS: `v.split('.').map(Number)` followed by a left-to-right loop over
`parts[i] || 0`, returning 1 / -1 at the first unequal pair, else 0.
Strings are embedded through their character lists so every definition
reduces in the kernel. -/

/-- Splitting a character list on the dot character, mirroring JS
`String.prototype.split('.')`: the empty string yields one empty component,
and a trailing dot yields a trailing empty component. -/
def splitCharsOnDot : List Char → List (List Char)
  | [] => [[]]
  | c :: rest =>
    if c = '.' then [] :: splitCharsOnDot rest
    else
      match splitCharsOnDot rest with
      | h :: t => (c :: h) :: t
      | [] => [[c]]

/-- `v.split('.')` on a version string, as character lists. -/
def splitOnDot (s : String) : List (List Char) :=
  splitCharsOnDot s.data

/-- Strip leading and trailing whitespace characters (JS `Number` trims its
argument before parsing). -/
def charsTrim (cs : List Char) : List Char :=
  ((cs.dropWhile Char.isWhitespace).reverse.dropWhile Char.isWhitespace).reverse

/-- Parse a nonempty run of decimal digits; `none` when the list is empty or
has a non-digit character. -/
def digitsToNat : List Char → Option Nat
  | [] => none
  | cs =>
    if cs.all Char.isDigit then
      some (cs.foldl (fun acc c => acc * 10 + (c.toNat - 48)) 0)
    else none

/-- JS `Number(s)` applied to one dot-separated version component, with
`none` standing for NaN: the trimmed empty string is 0, an optional sign
followed by decimal digits is that integer, and anything else is NaN.
(Exotic numeric literal forms — hex, exponent, fractional — cannot occur
inside a dot-separated component of a version string and are mapped to
NaN here.) -/
def jsNumberOfChars (cs : List Char) : Option Int :=
  let t := charsTrim cs
  if t = [] then some 0
  else
    match t with
    | '-' :: rest => (digitsToNat rest).map (fun n => -(n : Int))
    | '+' :: rest => (digitsToNat rest).map (fun n => (n : Int))
    | _ => (digitsToNat t).map (fun n => (n : Int))

/-- JS `parts[i] || 0`: an out-of-range index (`undefined`) and a NaN
component (`Number` failed) are both falsy and replaced by 0; the value 0
itself is falsy but `0 || 0` is still 0, so returning the parsed value in
the `some` case is exact. -/
def componentAt (parts : List (List Char)) (i : Nat) : Int :=
  match parts.get? i with
  | none => 0
  | some cs =>
    match jsNumberOfChars cs with
    | none => 0
    | some n => n

/-- The comparison loop of `compareVersions`: `fuel` counts the remaining
iterations (the loop runs for `max parts1.length parts2.length` indices),
returning at the first unequal component pair. -/
def cmpFrom (parts1 parts2 : List (List Char)) (i fuel : Nat) : Int :=
  match fuel with
  | 0 => 0
  | fuel' + 1 =>
    let p1 := componentAt parts1 i
    let p2 := componentAt parts2 i
    if p1 > p2 then 1
    else if p1 < p2 then -1
    else cmpFrom parts1 parts2 (i + 1) fuel'

/-- `compareVersions(v1, v2)` from src/app.js: split both strings on `.`,
coerce each component with `Number`, compare component-wise left to right
up to the longer operand's component count; the first unequal pair decides,
otherwise 0. -/
def compareVersions (v1 v2 : String) : Int :=
  let parts1 := splitOnDot v1
  let parts2 := splitOnDot v2
  cmpFrom parts1 parts2 0 (max parts1.length parts2.length)

/-! ### Severity classifier (`checkPackage` in src/app.js) -/

/-- `checkPackage(packageName, version)` from src/app.js, with the
module-level dataset passed explicitly. The `version` argument is an
`Option String` because v1 lockfile nodes may lack a version field
(JS `undefined`): `includes(undefined)` on a list of strings is false, and
`compareVersions(undefined, c)` throws a TypeError that the per-element
try/catch inside the `some` callback converts to false — both modelled by
the `none` branches. -/
def checkPackage (data : ReferenceDataset) (packageName : String)
    (version : Option String) : Option Threat :=
  match data.compromisedPackages.find? (fun pkg => pkg.name == packageName) with
  | none => none
  | some compromisedPkg =>
    let exactMatch : Bool :=
      match version with
      | some v => compromisedPkg.compromisedVersions.contains v
      | none => false
    if exactMatch then
      some { severity := Severity.critical
           , description := "🚨 CRITICAL - Exact compromised version detected in "
               ++ data.attackName ++ " attack"
           , compromisedVersions := compromisedPkg.compromisedVersions
           , installedVersion := version
           , exactMatch := true }
    else
      let isHigherVersion : Bool :=
        compromisedPkg.compromisedVersions.any (fun compVer =>
          match version with
          | some v => decide (compareVersions v compVer > 0)
          | none => false)
      if isHigherVersion then
        some { severity := Severity.high
             , description := "⚠️ HIGH - This package has compromised versions. Your version is higher but stay vigilant."
             , compromisedVersions := compromisedPkg.compromisedVersions
             , installedVersion := version
             , exactMatch := false }
      else
        some { severity := Severity.warning
             , description := "⚡ MEDIUM - Package known as compromised but your version differs."
             , compromisedVersions := compromisedPkg.compromisedVersions
             , installedVersion := version
             , exactMatch := false }

end ShaiHulud

namespace ShaiHulud

/-! ### Dependency extraction (`extractDependencies` /
`extractDependenciesRecursive` in src/app.js) -/

/-- One value of the `packages` map of a v2/v3 lockfile: its own `name` and
`version` fields, each possibly absent. -/
structure PackageEntry where
  name : Option String
  version : Option String
deriving DecidableEq, Repr

mutual

/-- A node of the nested `dependencies` tree of a v1 lockfile: an optional
`version` field and an optional nested `dependencies` map. -/
inductive DepNode : Type where
  | mk (version : Option String) (dependencies : Option DepMap) : DepNode

/-- A v1 `dependencies` JS object, embedded as its ordered list of
key/value entries. -/
inductive DepMap : Type where
  | nil : DepMap
  | cons (name : String) (info : DepNode) (rest : DepMap) : DepMap

end

/-- The `version` field of a v1 tree node. -/
def DepNode.version : DepNode → Option String
  | .mk v _ => v

/-- The nested `dependencies` field of a v1 tree node. -/
def DepNode.dependencies : DepNode → Option DepMap
  | .mk _ d => d

/-- A parsed lockfile document, as far as the extractor inspects it: an
optional `packages` map (v2/v3) and an optional `dependencies` tree (v1).
A JS object is truthy whenever present, so the extractor's
`if (packageLock.packages)` / `if (packageLock.dependencies)` guards are
exactly the `Option` matches. -/
structure PackageLock where
  packages : Option (List (String × PackageEntry))
  dependencies : Option DepMap

/-- JS truthiness of a possibly-absent string field: `undefined` and the
empty string are falsy. -/
def truthyStr : Option String → Bool
  | some s => s != ""
  | none => false

/-- `path.replace(/^node_modules\//, '')`: strip one leading
`node_modules/` segment when present. -/
def stripNodeModules (path : String) : String :=
  if "node_modules/".data.isPrefixOf path.data then
    String.mk (path.data.drop "node_modules/".data.length)
  else path

/-- The body of the v2/v3 `forEach` over one `packages` entry: skip the
root (empty key), compute `pkg.name || path.replace(/^node_modules\//, '')`
(the `name` field is used only when present and truthy), and push the
dependency only when `name && version` is truthy. -/
def extractEntry (path : String) (pkg : PackageEntry) : List Dependency :=
  if path = "" then []
  else
    let name : String :=
      match pkg.name with
      | some s => if s = "" then stripNodeModules path else s
      | none => stripNodeModules path
    if name != "" && truthyStr pkg.version then
      [{ name := name, version := pkg.version, path := path }]
    else []

/-- The flat-map strategy of `extractDependencies`: the `forEach` over
`Object.entries(packageLock.packages)`. -/
def extractFromPackages : List (String × PackageEntry) → List Dependency
  | [] => []
  | (path, pkg) :: rest => extractEntry path pkg ++ extractFromPackages rest

mutual

/-- `extractDependenciesRecursive(deps, result, prefix)` from src/app.js:
for each entry push one dependency — name is the key, version is the node's
own `version` field (possibly absent), path is `prefix + name` — then, when
a nested `dependencies` object is present, recurse with the extended
separator `prefix + name + " > "`. The JS accumulator array is returned
functionally; children precede later siblings exactly as in the push
order. -/
def extractDependenciesRecursive : DepMap → String → List Dependency
  | DepMap.nil, _ => []
  | DepMap.cons name info rest, pre =>
    ({ name := name, version := info.version, path := pre ++ name } : Dependency)
      :: (extractNodeChildren info (pre ++ name ++ " > ")
          ++ extractDependenciesRecursive rest pre)

/-- Recursion into the optional nested `dependencies` of one node
(the `if (info.dependencies)` guard). -/
def extractNodeChildren : DepNode → String → List Dependency
  | DepNode.mk _ none, _ => []
  | DepNode.mk _ (some m), pre => extractDependenciesRecursive m pre

end

/-- `extractDependencies(packageLock)` from src/app.js: the v2/v3 flat-map
strategy runs when a `packages` field is present, then the v1 recursive
strategy appends to the same array when a `dependencies` field is present;
with neither field the result is the empty list. -/
def extractDependencies (packageLock : PackageLock) : List Dependency :=
  (match packageLock.packages with
   | some entries => extractFromPackages entries
   | none => []) ++
  (match packageLock.dependencies with
   | some deps => extractDependenciesRecursive deps ""
   | none => [])

/-! ### Scan aggregator (`analyzePackageLock` in src/app.js) -/

/-- The `results` accumulator of `analyzePackageLock`: safe counter, the
threats list (dependency paired with its threat record), and the list of
all analyzed packages (whose length is the total count shown as
"Total packages analyzed"). -/
structure ScanResult where
  safe : Nat
  threats : List (Dependency × Threat)
  allPackages : List Dependency
deriving DecidableEq, Repr

/-- One iteration of the `dependencies.forEach` in `analyzePackageLock`:
classify the dependency, append a threat or bump the safe counter, and
record the dependency in `allPackages` either way. -/
def scanStep (data : ReferenceDataset) (results : ScanResult)
    (dep : Dependency) : ScanResult :=
  match checkPackage data dep.name dep.version with
  | some threat =>
    { results with
      threats := results.threats ++ [(dep, threat)]
      allPackages := results.allPackages ++ [dep] }
  | none =>
    { results with
      safe := results.safe + 1
      allPackages := results.allPackages ++ [dep] }

/-- The aggregation loop of `analyzePackageLock` over an already-extracted
dependency list, starting from the empty accumulator. -/
def scanDependencies (data : ReferenceDataset) (deps : List Dependency) :
    ScanResult :=
  deps.foldl (scanStep data) { safe := 0, threats := [], allPackages := [] }

/-- `analyzePackageLock(packageLock)` from src/app.js (dataset passed
explicitly): extract the dependencies, then run the classifier over each
one, accumulating the scan result handed to the presentation layer. -/
def analyzePackageLock (data : ReferenceDataset) (packageLock : PackageLock) :
    ScanResult :=
  scanDependencies data (extractDependencies packageLock)

end ShaiHulud
namespace ShaiHulud

/-! ### Helper lemmas about the comparison loop -/

/-- The comparison loop is reflexive: comparing a part list with itself
yields 0 for any fuel and start index. -/
theorem cmpFrom_self (p : List (List Char)) : ∀ (fuel i : Nat), cmpFrom p p i fuel = 0
  | 0, _ => rfl
  | fuel + 1, i => by
    simp only [cmpFrom, gt_iff_lt, lt_irrefl, if_false]
    exact cmpFrom_self p fuel (i + 1)

/-- Swapping the operands of the comparison loop negates the result. -/
theorem cmpFrom_swap (p q : List (List Char)) :
    ∀ (fuel i : Nat), cmpFrom p q i fuel = -cmpFrom q p i fuel
  | 0, _ => rfl
  | fuel + 1, i => by
    simp only [cmpFrom, gt_iff_lt]
    rcases lt_trichotomy (componentAt p i) (componentAt q i) with h | h | h
    · rw [if_neg (by omega), if_pos h, if_pos h]
    · rw [if_neg (by omega), if_neg (by omega), if_neg (by omega), if_neg (by omega)]
      exact cmpFrom_swap p q fuel (i + 1)
    · rw [if_pos h, if_neg (by omega), if_pos h]
      rfl

/-- The comparison loop only ever produces -1, 0 or 1. -/
theorem cmpFrom_cases (p q : List (List Char)) :
    ∀ (fuel i : Nat), cmpFrom p q i fuel = -1 ∨ cmpFrom p q i fuel = 0 ∨ cmpFrom p q i fuel = 1
  | 0, _ => Or.inr (Or.inl rfl)
  | fuel + 1, i => by
    simp only [cmpFrom]
    split
    · exact Or.inr (Or.inr rfl)
    · split
      · exact Or.inl rfl
      · exact cmpFrom_cases p q fuel (i + 1)

end ShaiHulud
namespace ShaiHulud

/-! ### Claims C5 and C8: properties of the version comparator -/

/-- Claim C5: `compareVersions` is total over every pair of version strings
— it always returns one of -1, 0, 1 and never raises an error; a missing
component (index out of range) and a non-numeric component (`Number` gives
NaN) are both treated as 0; consequently `compareVersions "1.2" "1.2.0"
= 0`. -/
theorem compareVersions_total_and_lenient :
    (∀ a b : String, compareVersions a b = -1 ∨ compareVersions a b = 0 ∨
      compareVersions a b = 1) ∧
    (∀ (parts : List (List Char)) (i : Nat), parts.get? i = none →
      componentAt parts i = 0) ∧
    (∀ (parts : List (List Char)) (i : Nat) (cs : List Char),
      parts.get? i = some cs → jsNumberOfChars cs = none →
      componentAt parts i = 0) ∧
    compareVersions "1.2" "1.2.0" = 0 := by
  refine ⟨?_, ?_, ?_, by decide⟩
  · intro a b
    simpa only [compareVersions] using
      cmpFrom_cases (splitOnDot a) (splitOnDot b)
        (max (splitOnDot a).length (splitOnDot b).length) 0
  · intro parts i h
    rw [List.get?_eq_getElem?] at h
    simp [componentAt, h]
  · intro parts i cs h hn
    rw [List.get?_eq_getElem?] at h
    simp [componentAt, h, hn]

/-- Witness for C5: the non-numeric component of "1.x" is treated as 0,
an out-of-range component is treated as 0, and "1.2" compares equal to
"1.2.0". -/
theorem compareVersions_total_and_lenient_witness :
    componentAt (splitOnDot "1.x") 1 = 0 ∧
    componentAt (splitOnDot "1.x") 5 = 0 ∧
    compareVersions "1.2" "1.2.0" = 0 :=
  ⟨compareVersions_total_and_lenient.2.2.1 (splitOnDot "1.x") 1
    ('x' :: []) (by decide) (by decide),
   compareVersions_total_and_lenient.2.1 (splitOnDot "1.x") 5 (by decide),
   compareVersions_total_and_lenient.2.2.2⟩

/-- Claim C8: `compareVersions` is reflexive (`compare(a, a) == 0`) and
sign-antisymmetric (`compare(a, b) == -compare(b, a)`). -/
theorem compareVersions_refl_and_antisymm :
    (∀ a : String, compareVersions a a = 0) ∧
    (∀ a b : String, compareVersions a b = -compareVersions b a) := by
  constructor
  · intro a
    simpa only [compareVersions] using
      cmpFrom_self (splitOnDot a) (max (splitOnDot a).length (splitOnDot a).length) 0
  · intro a b
    have h := cmpFrom_swap (splitOnDot a) (splitOnDot b)
      (max (splitOnDot a).length (splitOnDot b).length) 0
    simp only [compareVersions]
    rw [h, Nat.max_comm]

end ShaiHulud
namespace ShaiHulud

/-! ### Classifier helper lemmas and example datasets -/

/-- A one-entry example dataset used by concrete witnesses. -/
def dsOne : ReferenceDataset :=
  ⟨"Shai Hulud 2.0", "2025-11-24", "dataset", [⟨"X", ["1.0.0"]⟩]⟩

/-- A two-version example dataset used by concrete witnesses and
counterexamples. -/
def dsTwo : ReferenceDataset :=
  ⟨"Shai Hulud 2.0", "2025-11-24", "dataset", [⟨"X", ["1.0.0", "3.0.0"]⟩]⟩

/-- When the package name is found and the installed version is not an
exact member of the entry's compromised versions, `checkPackage` returns a
non-exact threat whose severity is `high` precisely when the installed
version strictly exceeds some listed compromised version, and `warning`
otherwise. -/
theorem checkPackage_nonexact_char (data : ReferenceDataset) (nm v : String)
    (entry : CompromisedEntry)
    (hfind : data.compromisedPackages.find? (fun p => p.name == nm) = some entry)
    (hnx : v ∉ entry.compromisedVersions) :
    ∃ t : Threat, checkPackage data nm (some v) = some t ∧
      t.compromisedVersions = entry.compromisedVersions ∧
      t.installedVersion = some v ∧
      t.exactMatch = false ∧
      t.severity = (if ∃ c ∈ entry.compromisedVersions, compareVersions v c > 0
                    then Severity.high else Severity.warning) := by
  have hc : entry.compromisedVersions.contains v = false := by
    simp [List.contains, List.elem_iff, hnx]
  have hmain : checkPackage data nm (some v) =
      (if (entry.compromisedVersions.any fun compVer =>
            decide (compareVersions v compVer > 0)) then
        some { severity := Severity.high
             , description := "⚠️ HIGH - This package has compromised versions. Your version is higher but stay vigilant."
             , compromisedVersions := entry.compromisedVersions
             , installedVersion := some v
             , exactMatch := false }
      else
        some { severity := Severity.warning
             , description := "⚡ MEDIUM - Package known as compromised but your version differs."
             , compromisedVersions := entry.compromisedVersions
             , installedVersion := some v
             , exactMatch := false }) := by
    unfold checkPackage
    rw [hfind]
    simp [hc, hnx]
  by_cases hA : ∃ c ∈ entry.compromisedVersions, compareVersions v c > 0
  · have hany : (entry.compromisedVersions.any fun compVer =>
        decide (compareVersions v compVer > 0)) = true := by
      simpa [List.any_eq_true] using hA
    rw [hmain, if_pos hany]
    exact ⟨_, rfl, rfl, rfl, rfl, by rw [if_pos hA]⟩
  · have hany : (entry.compromisedVersions.any fun compVer =>
        decide (compareVersions v compVer > 0)) = false := by
      rw [List.any_eq_false]
      intro c hcmem
      simp only [decide_eq_true_eq]
      exact fun hgt => hA ⟨c, hcmem, hgt⟩
    rw [hmain, if_neg (by simp [hany])]
    exact ⟨_, rfl, rfl, rfl, rfl, by rw [if_neg hA]⟩

end ShaiHulud
namespace ShaiHulud

/-! ### Claim C3: not-found and exact-match tiers -/

/-- When the package name is found, `checkPackage` always returns some
threat: every branch of the classifier after a successful lookup produces
one. -/
theorem checkPackage_isSome_of_find (data : ReferenceDataset) (nm : String)
    (version : Option String) (entry : CompromisedEntry)
    (hfind : data.compromisedPackages.find? (fun p => p.name == nm) = some entry) :
    (checkPackage data nm version).isSome = true := by
  unfold checkPackage
  rw [hfind]
  dsimp only
  repeat' split
  all_goals rfl

/-- Claim C3: `checkPackage` returns not-found (`none`) if and only if the
queried name is absent from the dataset's compromised-package list under
exact string equality; and when the name is found and the queried version
is an exact string member of the entry's `compromisedVersions`, it returns
severity `critical` with `exactMatch = true`. -/
theorem checkPackage_notfound_and_exact :
    ∀ (data : ReferenceDataset) (nm : String) (version : Option String),
      (checkPackage data nm version = none ↔
        ∀ e ∈ data.compromisedPackages, e.name ≠ nm) ∧
      (∀ (entry : CompromisedEntry) (v : String),
        data.compromisedPackages.find? (fun p => p.name == nm) = some entry →
        v ∈ entry.compromisedVersions →
        ∃ t : Threat, checkPackage data nm (some v) = some t ∧
          t.severity = Severity.critical ∧ t.exactMatch = true) := by
  intro data nm version
  constructor
  · cases hfind : data.compromisedPackages.find? (fun p => p.name == nm) with
    | none =>
      have habs : ∀ e ∈ data.compromisedPackages, e.name ≠ nm := by
        intro e he
        simpa using List.find?_eq_none.mp hfind e he
      constructor
      · intro _
        exact habs
      · intro _
        unfold checkPackage
        rw [hfind]
    | some entry =>
      have hmem := List.mem_of_find?_eq_some hfind
      have hname : entry.name = nm := by simpa using List.find?_some hfind
      constructor
      · intro hnone
        exfalso
        have hs := checkPackage_isSome_of_find data nm version entry hfind
        rw [hnone] at hs
        simp at hs
      · intro habs
        exact absurd hname (habs entry hmem)
  · intro entry v hfind hv
    refine ⟨{ severity := Severity.critical
            , description := "🚨 CRITICAL - Exact compromised version detected in "
                ++ data.attackName ++ " attack"
            , compromisedVersions := entry.compromisedVersions
            , installedVersion := some v
            , exactMatch := true }, ?_, rfl, rfl⟩
    unfold checkPackage
    rw [hfind]
    simp [hv]

/-- Witness for C3 at a concrete dataset: package "X" at its exact
compromised version "1.0.0" is classified critical with an exact match. -/
theorem checkPackage_notfound_and_exact_witness :
    ∃ t : Threat, checkPackage dsOne "X" (some "1.0.0") = some t ∧
      t.severity = Severity.critical ∧ t.exactMatch = true :=
  (checkPackage_notfound_and_exact dsOne "X" (some "1.0.0")).2
    ⟨"X", ["1.0.0"]⟩ "1.0.0" (by decide) (by decide)

end ShaiHulud
namespace ShaiHulud

/-! ### Claim C1: non-exact three-tier classification -/

/-- Claim C1: for a package present in the dataset whose installed version
is not an exact member of the entry's compromised versions, `checkPackage`
produces exactly one non-critical threat with `exactMatch = false`, whose
severity is `high` precisely when the Version Comparator reports
`version > c` for at least one listed `c`, and `warning` otherwise; the
outcome does not depend on the order of `compromisedVersions` (any
permutation of the matched entry's list yields the same severity). -/
theorem checkPackage_nonexact_three_tier
    (data : ReferenceDataset) (nm v : String) (entry : CompromisedEntry)
    (hfind : data.compromisedPackages.find? (fun p => p.name == nm) = some entry)
    (hnx : v ∉ entry.compromisedVersions) :
    ∃ t : Threat, checkPackage data nm (some v) = some t ∧
      t.exactMatch = false ∧
      t.severity ≠ Severity.critical ∧
      (t.severity = Severity.high ↔
        ∃ c ∈ entry.compromisedVersions, compareVersions v c > 0) ∧
      (t.severity = Severity.warning ↔
        ¬ ∃ c ∈ entry.compromisedVersions, compareVersions v c > 0) ∧
      (∀ (data' : ReferenceDataset) (entry' : CompromisedEntry) (t' : Threat),
        data'.compromisedPackages.find? (fun p => p.name == nm) = some entry' →
        List.Perm entry'.compromisedVersions entry.compromisedVersions →
        checkPackage data' nm (some v) = some t' →
        t'.severity = t.severity) := by
  obtain ⟨t, ht, _, _, hex, hsev⟩ := checkPackage_nonexact_char data nm v entry hfind hnx
  have hiff : ∀ (l : List String), List.Perm l entry.compromisedVersions →
      ((∃ c ∈ l, compareVersions v c > 0) ↔
        ∃ c ∈ entry.compromisedVersions, compareVersions v c > 0) := by
    intro l hl
    constructor
    · rintro ⟨c, hc, hgt⟩
      exact ⟨c, hl.mem_iff.mp hc, hgt⟩
    · rintro ⟨c, hc, hgt⟩
      exact ⟨c, hl.mem_iff.mpr hc, hgt⟩
  refine ⟨t, ht, hex, ?_, ?_, ?_, ?_⟩
  · rw [hsev]
    split <;> simp
  · rw [hsev]
    by_cases hA : ∃ c ∈ entry.compromisedVersions, compareVersions v c > 0 <;>
      simp [hA]
  · rw [hsev]
    by_cases hA : ∃ c ∈ entry.compromisedVersions, compareVersions v c > 0 <;>
      simp [hA]
  · intro data' entry' t' hfind' hperm hcp'
    have hnx' : v ∉ entry'.compromisedVersions := fun hvv =>
      hnx (hperm.mem_iff.mp hvv)
    obtain ⟨t2, ht2, _, _, _, hsev2⟩ :=
      checkPackage_nonexact_char data' nm v entry' hfind' hnx'
    have ht2' : t' = t2 := by
      rw [hcp'] at ht2
      exact Option.some.inj ht2
    rw [ht2', hsev2, hsev, if_congr (hiff entry'.compromisedVersions hperm) rfl rfl]

/-- Witness for C1 at a concrete dataset: "1.0.10" is not an exact member
of ["1.0.0"] and exceeds "1.0.0", so the classification is non-critical
with severity high. -/
theorem checkPackage_nonexact_three_tier_witness :
    ∃ t : Threat, checkPackage dsOne "X" (some "1.0.10") = some t ∧
      t.exactMatch = false ∧ t.severity = Severity.high := by
  obtain ⟨t, ht, hex, _, hhigh, _, _⟩ :=
    checkPackage_nonexact_three_tier dsOne "X" "1.0.10" ⟨"X", ["1.0.0"]⟩
      (by decide) (by decide)
  exact ⟨t, ht, hex, hhigh.mpr ⟨"1.0.0", by decide, by decide⟩⟩

/-! ### Claim C2: the "exceeds all compromised versions" reading is wrong
— the code performs an existential check, not a universal one. -/

/-- Counterexample to claim C2 as stated: for the dataset entry
`{name: "X", compromisedVersions: ["1.0.0", "3.0.0"]}` the installed
version "2.0.0" is not an exact member and does NOT numerically exceed all
known compromised versions (it is below "3.0.0"), yet `checkPackage`
returns severity `high`, not `warning`. -/
theorem checkPackage_high_without_exceeding_all :
    dsTwo.compromisedPackages = [⟨"X", ["1.0.0", "3.0.0"]⟩] ∧
    "2.0.0" ∉ ["1.0.0", "3.0.0"] ∧
    "3.0.0" ∈ ["1.0.0", "3.0.0"] ∧
    compareVersions "2.0.0" "3.0.0" = -1 ∧
    (checkPackage dsTwo "X" (some "2.0.0")).map Threat.severity =
      some Severity.high ∧
    (checkPackage dsTwo "X" (some "2.0.0")).map Threat.exactMatch =
      some false := by
  decide

/-- Claim C2 (amended): for a package present in the dataset, severity
`high` is returned exactly when the installed version is not an exact
member and numerically exceeds at least one known compromised version of
the entry; severity `warning` is returned exactly when the installed
version is neither an exact member nor provably higher than any single
listed compromised version. -/
theorem checkPackage_high_iff_exceeds_some
    (data : ReferenceDataset) (nm v : String) (entry : CompromisedEntry)
    (hfind : data.compromisedPackages.find? (fun p => p.name == nm) = some entry)
    (hnx : v ∉ entry.compromisedVersions) :
    ∃ t : Threat, checkPackage data nm (some v) = some t ∧
      (t.severity = Severity.high ↔
        ∃ c ∈ entry.compromisedVersions, compareVersions v c > 0) ∧
      (t.severity = Severity.warning ↔
        ∀ c ∈ entry.compromisedVersions, ¬ compareVersions v c > 0) := by
  obtain ⟨t, ht, _, _, _, hsev⟩ := checkPackage_nonexact_char data nm v entry hfind hnx
  refine ⟨t, ht, ?_, ?_⟩ <;> rw [hsev] <;>
    by_cases hA : ∃ c ∈ entry.compromisedVersions, compareVersions v c > 0
  · simp [hA]
  · simp [hA]
  · simp only [if_pos hA]
    push_neg at hA ⊢
    constructor
    · intro hw
      exact absurd hw (by simp)
    · intro hall
      obtain ⟨c, hc, hgt⟩ := hA
      exact absurd hgt (by simpa using hall c hc)
  · simp only [if_neg hA]
    push_neg at hA
    simp only [true_iff, iff_true]
    intro c hc
    exact not_lt.mpr (hA c hc)

/-- Witness for the amended C2 at a concrete dataset: "2.0.0" exceeds the
listed "1.0.0" (though not "3.0.0"), so the severity is high. -/
theorem checkPackage_high_iff_exceeds_some_witness :
    ∃ t : Threat, checkPackage dsTwo "X" (some "2.0.0") = some t ∧
      t.severity = Severity.high := by
  obtain ⟨t, ht, hhigh, _⟩ :=
    checkPackage_high_iff_exceeds_some dsTwo "X" "2.0.0" ⟨"X", ["1.0.0", "3.0.0"]⟩
      (by decide) (by decide)
  exact ⟨t, ht, hhigh.mpr ⟨"1.0.0", by decide, by decide⟩⟩

end ShaiHulud
namespace ShaiHulud

/-! ### Claim C4: the scan aggregator's counting invariant -/

/-- Generalized accumulator lemma for the aggregation loop: folding
`scanStep` over a dependency list appends every dependency to
`allPackages`, counts the not-found ones into `safe`, and appends one
finding per classified dependency to `threats`, in input order. -/
theorem scanStep_foldl (data : ReferenceDataset) :
    ∀ (deps : List Dependency) (r : ScanResult),
      deps.foldl (scanStep data) r =
        { safe := r.safe +
            (deps.filter (fun d => (checkPackage data d.name d.version).isNone)).length
        , threats := r.threats ++
            deps.filterMap (fun d => (checkPackage data d.name d.version).map
              (fun t => (d, t)))
        , allPackages := r.allPackages ++ deps } := by
  intro deps
  induction deps with
  | nil => intro r; simp
  | cons d rest ih =>
    intro r
    rw [List.foldl_cons, ih]
    cases hchk : checkPackage data d.name d.version with
    | none =>
      simp [scanStep, hchk, List.filter_cons, List.filterMap_cons]
      omega
    | some t =>
      simp [scanStep, hchk, List.filter_cons, List.filterMap_cons]

/-- The not-found dependencies and the classified dependencies partition
the input list, so their counts sum to its length. -/
theorem safe_add_threats_length (data : ReferenceDataset) :
    ∀ deps : List Dependency,
      (deps.filter (fun d => (checkPackage data d.name d.version).isNone)).length +
      (deps.filterMap (fun d => (checkPackage data d.name d.version).map
        (fun t => (d, t)))).length = deps.length := by
  intro deps
  induction deps with
  | nil => simp
  | cons d rest ih =>
    cases hchk : checkPackage data d.name d.version with
    | none => simp [List.filter_cons, List.filterMap_cons, hchk]; omega
    | some t => simp [List.filter_cons, List.filterMap_cons, hchk]; omega

/-- Claim C4: for every dependency sequence and dataset, the aggregator's
result counts each dependency exactly once — `allPackages` is the input
list itself (so `totalCount` is its length), `safe` counts exactly the
dependencies the classifier reports not-found, `threats` lists one finding
per classified dependency in input order, and
`safe + |threats| = totalCount`; `analyzePackageLock` is this aggregation
applied to the extracted dependencies. -/
theorem scan_counts_partition :
    ∀ (data : ReferenceDataset) (deps : List Dependency),
      (scanDependencies data deps).allPackages = deps ∧
      (scanDependencies data deps).safe =
        (deps.filter (fun d => (checkPackage data d.name d.version).isNone)).length ∧
      (scanDependencies data deps).threats =
        deps.filterMap (fun d => (checkPackage data d.name d.version).map
          (fun t => (d, t))) ∧
      (scanDependencies data deps).safe + (scanDependencies data deps).threats.length =
        (scanDependencies data deps).allPackages.length ∧
      ∀ lock : PackageLock,
        analyzePackageLock data lock = scanDependencies data (extractDependencies lock) := by
  intro data deps
  have h := scanStep_foldl data deps { safe := 0, threats := [], allPackages := [] }
  have hsd : scanDependencies data deps =
      { safe := (deps.filter (fun d => (checkPackage data d.name d.version).isNone)).length
      , threats := deps.filterMap (fun d => (checkPackage data d.name d.version).map
          (fun t => (d, t)))
      , allPackages := deps } := by
    rw [scanDependencies, h]
    simp
  refine ⟨by rw [hsd], by rw [hsd], by rw [hsd], ?_, fun _ => rfl⟩
  rw [hsd]
  exact safe_add_threats_length data deps

end ShaiHulud
namespace ShaiHulud

/-! ### Claim C9: a document with neither extraction field -/

/-- Claim C9: for every document containing neither a `packages` field nor
a `dependencies` field, extraction returns the empty dependency sequence
rather than signaling an error, and the subsequent scan reports zero
packages analyzed. -/
theorem extract_neither_field_empty :
    ∀ (data : ReferenceDataset) (lock : PackageLock),
      lock.packages = none → lock.dependencies = none →
      extractDependencies lock = [] ∧
      (analyzePackageLock data lock).allPackages.length = 0 ∧
      (analyzePackageLock data lock).safe = 0 ∧
      (analyzePackageLock data lock).threats = [] := by
  intro data lock hp hd
  have hext : extractDependencies lock = [] := by
    unfold extractDependencies
    rw [hp, hd]
    rfl
  refine ⟨hext, ?_, ?_, ?_⟩ <;>
    simp [analyzePackageLock, hext, scanDependencies]

/-- Witness for C9: the empty document extracts to nothing and scans to a
zero total. -/
theorem extract_neither_field_empty_witness :
    extractDependencies ⟨none, none⟩ = [] ∧
    (analyzePackageLock dsOne ⟨none, none⟩).allPackages.length = 0 := by
  obtain ⟨h1, h2, _, _⟩ := extract_neither_field_empty dsOne ⟨none, none⟩ rfl rfl
  exact ⟨h1, h2⟩

/-! ### Claim C6: the v2/v3 flat-map strategy -/

/-- The v2-style example document from the spec: a root entry (empty key)
plus one entry under node_modules. -/
def exampleV2Doc : PackageLock :=
  ⟨some [("", ⟨none, none⟩), ("node_modules/foo", ⟨none, some "1.0.0"⟩)], none⟩

/-- Membership characterization for one `packages` entry: a dependency is
produced exactly for a non-root key whose computed name (the truthy `name`
field, else the key with one leading node_modules/ segment stripped) and
version are both truthy, with the original key as path. -/
theorem mem_extractEntry_iff (path : String) (pkg : PackageEntry) (d : Dependency) :
    d ∈ extractEntry path pkg ↔
      (path ≠ "" ∧ d.path = path ∧ d.version = pkg.version ∧
       truthyStr pkg.version = true ∧
       d.name = (match pkg.name with
         | some s => if s = "" then stripNodeModules path else s
         | none => stripNodeModules path) ∧
       d.name ≠ "") := by
  unfold extractEntry
  by_cases hp : path = ""
  · simp [hp]
  · rw [if_neg hp]
    by_cases hb : ((match pkg.name with
         | some s => if s = "" then stripNodeModules path else s
         | none => stripNodeModules path) != "" && truthyStr pkg.version) = true
    · rw [if_pos hb]
      rw [Bool.and_eq_true, bne_iff_ne] at hb
      obtain ⟨hn, hv⟩ := hb
      simp only [List.mem_singleton]
      constructor
      · rintro rfl
        exact ⟨hp, rfl, rfl, hv, rfl, hn⟩
      · rintro ⟨-, hdp, hdv, -, hdn, -⟩
        cases d
        simp_all
    · rw [if_neg hb]
      simp only [List.not_mem_nil, false_iff]
      rintro ⟨-, -, -, hv, hdn, hn⟩
      rw [hdn] at hn
      exact hb (by rw [Bool.and_eq_true, bne_iff_ne]; exact ⟨hn, hv⟩)

/-- Membership characterization of the whole flat-map strategy. -/
theorem mem_extractFromPackages_iff (entries : List (String × PackageEntry))
    (d : Dependency) :
    d ∈ extractFromPackages entries ↔
      ∃ path pkg, (path, pkg) ∈ entries ∧ path ≠ "" ∧
        d.path = path ∧ d.version = pkg.version ∧
        truthyStr pkg.version = true ∧
        d.name = (match pkg.name with
          | some s => if s = "" then stripNodeModules path else s
          | none => stripNodeModules path) ∧
        d.name ≠ "" := by
  induction entries with
  | nil => simp [extractFromPackages]
  | cons e rest ih =>
    obtain ⟨path, pkg⟩ := e
    rw [extractFromPackages, List.mem_append, ih, mem_extractEntry_iff]
    constructor
    · rintro (⟨hp, hc⟩ | ⟨p, q, hm, hc⟩)
      · exact ⟨path, pkg, List.mem_cons_self _ _, hp, hc⟩
      · exact ⟨p, q, List.mem_cons_of_mem _ hm, hc⟩
    · rintro ⟨p, q, hm, hc⟩
      rcases List.mem_cons.mp hm with heq | hm'
      · rw [Prod.mk.injEq] at heq
        obtain ⟨rfl, rfl⟩ := heq
        exact Or.inl hc
      · exact Or.inr ⟨p, q, hm', hc⟩

/-- Claim C6: the flat-map (v2/v3) strategy skips the root entry (empty
key), names every produced dependency by the entry's truthy `name` field
or else by its key with one leading `node_modules/` segment stripped,
includes an entry only when both the computed name and the version are
present (truthy), records the original key as `path` — and on the spec's
example document it yields exactly one dependency
`{name: "foo", version: "1.0.0", path: "node_modules/foo"}`. -/
theorem extract_v2_flat_map_strategy :
    (∀ (entries : List (String × PackageEntry)) (d : Dependency),
      d ∈ extractFromPackages entries ↔
        ∃ path pkg, (path, pkg) ∈ entries ∧ path ≠ "" ∧
          d.path = path ∧ d.version = pkg.version ∧
          truthyStr pkg.version = true ∧
          d.name = (match pkg.name with
            | some s => if s = "" then stripNodeModules path else s
            | none => stripNodeModules path) ∧
          d.name ≠ "") ∧
    extractDependencies exampleV2Doc =
      [{ name := "foo", version := some "1.0.0", path := "node_modules/foo" }] := by
  exact ⟨mem_extractFromPackages_iff, by decide⟩

/-- Witness for C6: the spec's example entry is indeed a member of the
extraction of its document. -/
theorem extract_v2_flat_map_strategy_witness :
    ({ name := "foo", version := some "1.0.0", path := "node_modules/foo" } : Dependency) ∈
      extractFromPackages [("", ⟨none, none⟩), ("node_modules/foo", ⟨none, some "1.0.0"⟩)] :=
  (extract_v2_flat_map_strategy.1 _ _).mpr
    ⟨"node_modules/foo", ⟨none, some "1.0.0"⟩, by decide, by decide, rfl, rfl,
      by decide, by decide, by decide⟩

end ShaiHulud
namespace ShaiHulud

/-! ### Claim C7: the v1 recursive-tree strategy -/

/-- The v1-style example document from the spec:
`{dependencies: {a: {version: "1.0.0", dependencies: {b: {version:
"2.0.0"}}}}}`. -/
def exampleV1Doc : PackageLock :=
  ⟨none, some (DepMap.cons "a"
    (DepNode.mk (some "1.0.0")
      (some (DepMap.cons "b" (DepNode.mk (some "2.0.0") none) DepMap.nil)))
    DepMap.nil)⟩

/-- Modelled from the spec's wording for the v1 path: the ancestor names
joined with a `" > "` separator, as the prefix preceding the node's own
name (empty prefix at the root). -/
def specAncestorsJoin : List String → String
  | [] => ""
  | a :: rest => a ++ " > " ++ specAncestorsJoin rest

mutual

/-- Modelled from the spec's wording for the v1 walk: a depth-first list of
(ancestor names, own key, version field) triples, one per node. -/
def specWalkMap : DepMap → List String → List (List String × String × Option String)
  | DepMap.nil, _ => []
  | DepMap.cons name info rest, anc =>
    (anc, name, info.version) ::
      (specWalkNode info (anc ++ [name]) ++ specWalkMap rest anc)

/-- The nested part of the spec-side walk for one node. -/
def specWalkNode : DepNode → List String → List (List String × String × Option String)
  | DepNode.mk _ none, _ => []
  | DepNode.mk _ (some m), anc => specWalkMap m anc

end

/-- Appending one more ancestor extends the joined prefix by that name and
one separator. -/
theorem specAncestorsJoin_snoc (anc : List String) (nm : String) :
    specAncestorsJoin (anc ++ [nm]) = specAncestorsJoin anc ++ nm ++ " > " := by
  induction anc with
  | nil => simp [specAncestorsJoin, String.append_empty]
  | cons a rest ih =>
    rw [List.cons_append, specAncestorsJoin, specAncestorsJoin, ih]
    simp only [String.append_assoc]

mutual

/-- The code's v1 walk started at the joined ancestor prefix produces, per
spec-side node triple, the dependency whose name is the node's key and
whose path is the ancestor prefix followed by that key. -/
theorem extract_eq_specWalkMap (m : DepMap) (anc : List String) :
    extractDependenciesRecursive m (specAncestorsJoin anc) =
      (specWalkMap m anc).map
        (fun e => { name := e.2.1, version := e.2.2
                  , path := specAncestorsJoin e.1 ++ e.2.1 : Dependency }) := by
  cases m with
  | nil => rfl
  | cons nm info rest =>
    rw [extractDependenciesRecursive, specWalkMap, List.map_cons, List.map_append]
    have hpre : specAncestorsJoin anc ++ nm ++ " > " = specAncestorsJoin (anc ++ [nm]) :=
      (specAncestorsJoin_snoc anc nm).symm
    rw [hpre, extractNode_eq_specWalkNode info (anc ++ [nm]),
      extract_eq_specWalkMap rest anc]

/-- Companion of `extract_eq_specWalkMap` for the optional nested map of a
single node. -/
theorem extractNode_eq_specWalkNode (info : DepNode) (anc : List String) :
    extractNodeChildren info (specAncestorsJoin anc) =
      (specWalkNode info anc).map
        (fun e => { name := e.2.1, version := e.2.2
                  , path := specAncestorsJoin e.1 ++ e.2.1 : Dependency }) := by
  cases info with
  | mk v d =>
    cases d with
    | none => rfl
    | some m => exact extract_eq_specWalkMap m anc

end

/-- Claim C7: the v1 recursive strategy walks the `dependencies` tree
depth-first, emitting exactly one dependency per node whose name is the
node's own key and whose path is the ancestor names joined by " > " as a
prefix (empty at the root) followed by the key; on the spec's example
document it yields the two dependencies `a` and `b`, with `b`'s path
containing `a`. -/
theorem extract_v1_recursive_strategy :
    (∀ m : DepMap,
      extractDependenciesRecursive m "" =
        (specWalkMap m []).map
          (fun e => { name := e.2.1, version := e.2.2
                    , path := specAncestorsJoin e.1 ++ e.2.1 : Dependency })) ∧
    extractDependencies exampleV1Doc =
      [{ name := "a", version := some "1.0.0", path := "a" },
       { name := "b", version := some "2.0.0", path := "a > b" }] := by
  exact ⟨fun m => extract_eq_specWalkMap m [], by decide⟩

/-- Witness for C7: the code's walk of the example tree coincides with the
spec-side walk mapped through the ancestor-join path. -/
theorem extract_v1_recursive_strategy_witness :
    extractDependenciesRecursive
        (DepMap.cons "a"
          (DepNode.mk (some "1.0.0")
            (some (DepMap.cons "b" (DepNode.mk (some "2.0.0") none) DepMap.nil)))
          DepMap.nil) "" =
      (specWalkMap
        (DepMap.cons "a"
          (DepNode.mk (some "1.0.0")
            (some (DepMap.cons "b" (DepNode.mk (some "2.0.0") none) DepMap.nil)))
          DepMap.nil) []).map
        (fun e => { name := e.2.1, version := e.2.2
                  , path := specAncestorsJoin e.1 ++ e.2.1 : Dependency }) :=
  extract_v1_recursive_strategy.1 _

end ShaiHulud
namespace ShaiHulud

/-! ### Claim C10: versionless v1 nodes are emitted and still flagged -/

mutual

/-- The number of nodes of a v1 `dependencies` tree (every node counted,
with or without a `version` field). -/
def depMapCount : DepMap → Nat
  | DepMap.nil => 0
  | DepMap.cons _ info rest => 1 + depNodeCount info + depMapCount rest

/-- The number of nodes below one node's optional nested map. -/
def depNodeCount : DepNode → Nat
  | DepNode.mk _ none => 0
  | DepNode.mk _ (some m) => depMapCount m

end

mutual

/-- The v1 walk emits exactly one dependency per tree node, whatever the
prefix — there is no version filter in the recursive strategy. -/
theorem extractDependenciesRecursive_length (m : DepMap) (pre : String) :
    (extractDependenciesRecursive m pre).length = depMapCount m := by
  cases m with
  | nil => rfl
  | cons nm info rest =>
    rw [extractDependenciesRecursive, depMapCount, List.length_cons,
      List.length_append, extractNodeChildren_length info (pre ++ nm ++ " > "),
      extractDependenciesRecursive_length rest pre]
    omega

/-- Companion of `extractDependenciesRecursive_length` for one node's
optional nested map. -/
theorem extractNodeChildren_length (info : DepNode) (pre : String) :
    (extractNodeChildren info pre).length = depNodeCount info := by
  cases info with
  | mk v d =>
    cases d with
    | none => rfl
    | some m => exact extractDependenciesRecursive_length m pre

end

/-- Claim C10: the recursive v1 strategy emits a dependency for every node
even without a `version` field (the emitted version is then absent); the
version filter applies only to the flat-map strategy (a versionless
`packages` entry is skipped); and a versionless v1 node whose key matches a
dataset package name still produces a finding — classified `warning`,
since the absent version is neither an exact member nor comparable. -/
theorem v1_versionless_emitted_and_flagged :
    (∀ (m : DepMap) (pre : String),
      (extractDependenciesRecursive m pre).length = depMapCount m) ∧
    (∀ (nm : String) (node : DepNode) (rest : DepMap) (pre : String),
      (extractDependenciesRecursive (DepMap.cons nm node rest) pre).head? =
        some { name := nm, version := node.version, path := pre ++ nm }) ∧
    (∀ (path : String) (nameField : Option String),
      extractEntry path ⟨nameField, none⟩ = []) ∧
    (∀ (data : ReferenceDataset) (nm : String) (entry : CompromisedEntry),
      data.compromisedPackages.find? (fun p => p.name == nm) = some entry →
      ∃ t : Threat, checkPackage data nm none = some t ∧
        t.severity = Severity.warning ∧
        (analyzePackageLock data
          ⟨none, some (DepMap.cons nm (DepNode.mk none none) DepMap.nil)⟩).threats =
          [({ name := nm, version := none, path := "" ++ nm }, t)]) := by
  refine ⟨extractDependenciesRecursive_length, fun nm node rest pre => rfl,
    ?_, ?_⟩
  · intro path nameField
    unfold extractEntry
    by_cases hp : path = ""
    · simp [hp]
    · rw [if_neg hp]
      simp [truthyStr]
  · intro data nm entry hfind
    have hwarn : checkPackage data nm none =
        some { severity := Severity.warning
             , description := "⚡ MEDIUM - Package known as compromised but your version differs."
             , compromisedVersions := entry.compromisedVersions
             , installedVersion := none
             , exactMatch := false } := by
      unfold checkPackage
      rw [hfind]
      simp
    refine ⟨_, hwarn, rfl, ?_⟩
    rw [analyzePackageLock]
    have hext : extractDependencies
        ⟨none, some (DepMap.cons nm (DepNode.mk none none) DepMap.nil)⟩ =
        [{ name := nm, version := none, path := "" ++ nm }] := rfl
    rw [hext, scanDependencies, List.foldl_cons, List.foldl_nil, scanStep]
    simp only [hwarn]
    rfl

/-- Witness for C10: with package "X" in the dataset, a v1 node keyed "X"
with no version is still reported, as a warning finding. -/
theorem v1_versionless_emitted_and_flagged_witness :
    ∃ t : Threat, checkPackage dsOne "X" none = some t ∧
      t.severity = Severity.warning ∧
      (analyzePackageLock dsOne
        ⟨none, some (DepMap.cons "X" (DepNode.mk none none) DepMap.nil)⟩).threats =
        [({ name := "X", version := none, path := "" ++ "X" }, t)] :=
  v1_versionless_emitted_and_flagged.2.2.2 dsOne "X" ⟨"X", ["1.0.0"]⟩ (by decide)

end ShaiHulud
